import Mathlib

/-!
Shallow embedding of the `useThrottleRequests` React hook
(repository johnnyreilly/throttle-requests-react-hook).

The source has two independent pieces:

* the progress aggregator: `ThrottledProgress`, `createThrottledProgress`,
  `updateThrottledProgress` and the `reducer` dispatched by `useReducer`
  (actions `initialise`, `requestSuccess`, `requestFailed`);
* the scheduler `throttleRequests(requestsToMake, maxParallelRequests)`,
  which admits units in order, keeps the promises of the in-flight units in
  a `queue` array, and whenever `queue.length >= maxParallelRequests` awaits
  `Promise.race(queue)` before admitting the next unit; each promise removes
  itself from `queue` (via `splice`) when it settles.

JavaScript numbers that hold list lengths and the request total are embedded
as `Nat`; the concurrency limit, which the caller may pass as any integer, is
embedded as `Int`.

The percentage is computed by the source as
`Math.round(((errors.length + values.length) / totalRequests) * 100)` in
IEEE-754 binary64: the division and the multiplication each round to
nearest (ties to even), then `Math.round` returns the closest integral
value, ties toward `+∞` (ECMA-262), which on the exact value of its double
argument is `floor(x + 1/2)`.  This pipeline is embedded exactly on dyadic
rationals (`fdiv64`, `fmul100`, `mathRound` below); the embedding keeps the
exponent unclamped, which coincides with binary64 for all values the
program can produce (counts and totals are JavaScript array lengths, below
`2 ^ 32`, so all quotients lie well inside the normal range).  The double
result can differ from the exact `round(100 * c / t)` — e.g. 23 of 40 gives
57, not 58 — so the spec formula is kept separately as `roundRatio` for
comparison.
-/

namespace ThrottleHook

/-- JS truthiness of the payload types: the source's reducer tests
`newData.error ? … : …` and `newData.value ? … : …`, so whether a reported
payload is appended depends on the JavaScript truthiness of the value. -/
class Truthy (α : Type) where
  truthy : α → Bool

/-- Integers with JS-number truthiness: `0` is falsy, every other number is
truthy. -/
instance : Truthy Int :=
  ⟨fun v => v != 0⟩

/-- The state representing progress of the throttled requests
(source type `ThrottledProgress<TData>`); `V` is the success-value type
`TData`, `E` the error type. -/
structure ThrottledProgress (V E : Type) where
  totalRequests : Nat
  errors : List E
  values : List V
  percentageLoaded : Nat
  loading : Bool

deriving instance DecidableEq for ThrottledProgress

deriving instance Repr for ThrottledProgress

/-- Source `createThrottledProgress(totalRequests)`: the fresh snapshot
`{ totalRequests, percentageLoaded: 0, loading: false, errors: [], values: [] }`. -/
def createThrottledProgress {V E : Type} (totalRequests : Nat) :
    ThrottledProgress V E :=
  { totalRequests := totalRequests
    percentageLoaded := 0
    loading := false
    errors := []
    values := [] }

/-- The fields of react-use's `AsyncState<TData>` that the reducer reads; a
missing field of the JS object literal is `none` (JS `undefined`, falsy). -/
structure AsyncState (V E : Type) where
  loading : Bool
  value : Option V
  error : Option E

deriving instance DecidableEq for AsyncState

/-- Bit length of a natural number (`0` for `0`), computed with structural
fuel so that the kernel can evaluate it; the fuel `n` always suffices since
the argument at least halves each step. -/
def bitLenAux : Nat → Nat → Nat
  | 0, _ => 0
  | fuel + 1, n => if n = 0 then 0 else bitLenAux fuel (n / 2) + 1

/-- Bit length: the unique `L` with `2 ^ (L - 1) ≤ n < 2 ^ L` for `n ≥ 1`. -/
def bitLen (n : Nat) : Nat := bitLenAux n n

/-- Decides `2 ^ k ≤ c / t` for naturals `c`, `t` and an integer `k`. -/
def le2exp (t : Nat) (k : Int) (c : Nat) : Bool :=
  if 0 ≤ k then decide (t * 2 ^ k.toNat ≤ c) else decide (t ≤ c * 2 ^ (-k).toNat)

/-- `⌊log2 (c / t)⌋` for `c, t ≥ 1`: the unique `f` with
`2 ^ f ≤ c / t < 2 ^ (f + 1)`. -/
def flog2 (c t : Nat) : Int :=
  let k : Int := (bitLen c : Int) - (bitLen t : Int)
  if le2exp t k c then k else k - 1

/-- Round `N / D` to the nearest integer, ties to even — the rounding step
shared by the binary64 operations below. -/
def rne (N D : Nat) : Nat :=
  let q := N / D
  let r := N % D
  if 2 * r > D ∨ (2 * r = D ∧ q % 2 = 1) then q + 1 else q

/-- IEEE binary64 division `c / t` (round to nearest, ties to even) for
naturals, returned as a dyadic pair `(m, e)` of value `m * 2 ^ e`: the
quotient is scaled so that 53 significant bits remain, and rounded with
`rne`.  The exponent is not clamped, which agrees with binary64 whenever
the result is a normal double — true of every quotient of JavaScript array
lengths. -/
def fdiv64 (c t : Nat) : Nat × Int :=
  if c = 0 then (0, 0)
  else
    let f := flog2 c t
    let s : Int := 52 - f
    (rne (c * 2 ^ s.toNat) (t * 2 ^ (-s).toNat), f - 52)

/-- IEEE binary64 multiplication of the dyadic `p` by the (exactly
representable) constant 100: the exact product is rounded back to 53
significant bits with `rne` when it needs more. -/
def fmul100 (p : Nat × Int) : Nat × Int :=
  let M := p.1 * 100
  if bitLen M ≤ 53 then (M, p.2)
  else
    let r := bitLen M - 53
    (rne M (2 ^ r), (p.2 + r : Int))

/-- ECMA-262 `Math.round` of a non-negative dyadic `m * 2 ^ e`: the closest
integral value, ties toward `+∞`, i.e. `floor (m * 2 ^ e + 1 / 2)` computed
exactly. -/
def mathRound (p : Nat × Int) : Nat :=
  if 0 ≤ p.2 then p.1 * 2 ^ p.2.toNat
  else (p.1 + 2 ^ ((-p.2).toNat - 1)) / 2 ^ (-p.2).toNat

/-- The percentage the source stores:
`totalRequests === 0 ? 0 : Math.round((completed / totalRequests) * 100)`
with the division and multiplication performed in IEEE binary64. -/
def jsPercentage (completed total : Nat) : Nat :=
  if total = 0 then 0 else mathRound (fmul100 (fdiv64 completed total))

/-- The exact rational value of a dyadic pair. -/
def dval (p : Nat × Int) : ℚ := (p.1 : ℚ) * (2 : ℚ) ^ p.2

/-- Source `updateThrottledProgress(currentProgress, newData)`: appends a
truthy `newData.error` to `errors`, a truthy `newData.value` to `values`,
and recomputes `percentageLoaded`
(`Math.round(((errors.length + values.length) / totalRequests) * 100)` in
binary64, guarded to `0` when `totalRequests === 0` — the guard and the
double pipeline together are `jsPercentage`) and `loading`
(`errors.length + values.length < totalRequests`, guarded to `false` when
`totalRequests === 0`). -/
def updateThrottledProgress {V E : Type} [Truthy V] [Truthy E]
    (currentProgress : ThrottledProgress V E) (newData : AsyncState V E) :
    ThrottledProgress V E :=
  let errors : List E :=
    match newData.error with
    | some e =>
        if Truthy.truthy e then currentProgress.errors ++ [e]
        else currentProgress.errors
    | none => currentProgress.errors
  let values : List V :=
    match newData.value with
    | some v =>
        if Truthy.truthy v then currentProgress.values ++ [v]
        else currentProgress.values
    | none => currentProgress.values
  let percentageLoaded : Nat :=
    jsPercentage (errors.length + values.length) currentProgress.totalRequests
  let loading : Bool :=
    if currentProgress.totalRequests = 0 then false
    else decide (errors.length + values.length < currentProgress.totalRequests)
  { totalRequests := currentProgress.totalRequests
    loading := loading
    percentageLoaded := percentageLoaded
    errors := errors
    values := values }

/-- Source `ThrottleActions<TValue>`: the three actions of the reducer. -/
inductive ThrottleActions (V E : Type) where
  | initialise (totalRequests : Nat)
  | requestSuccess (value : V)
  | requestFailed (error : E)

deriving instance DecidableEq for ThrottleActions

/-- Source `reducer(throttledProgressAndState, action)` inside
`useThrottleRequests`: `initialise` resets via `createThrottledProgress`;
`requestSuccess` and `requestFailed` feed `updateThrottledProgress` the
object literals `{loading: false, value: action.value}` and
`{loading: false, error: action.error}` respectively. -/
def reducer {V E : Type} [Truthy V] [Truthy E]
    (throttledProgressAndState : ThrottledProgress V E)
    (action : ThrottleActions V E) : ThrottledProgress V E :=
  match action with
  | ThrottleActions.initialise n => createThrottledProgress n
  | ThrottleActions.requestSuccess v =>
      updateThrottledProgress throttledProgressAndState
        { loading := false, value := some v, error := none }
  | ThrottleActions.requestFailed e =>
      updateThrottledProgress throttledProgressAndState
        { loading := false, value := none, error := some e }

/-- Dispatching a list of actions in order against the reducer, starting
from snapshot `s` (the sequence of `dispatch` calls made while a batch
runs). -/
def dispatchAll {V E : Type} [Truthy V] [Truthy E]
    (s : ThrottledProgress V E) (acts : List (ThrottleActions V E)) :
    ThrottledProgress V E :=
  acts.foldl reducer s

/-- The successive snapshots published by the reducer: the start state
followed by the state after each dispatched action. -/
def snapshotTrace {V E : Type} [Truthy V] [Truthy E]
    (s : ThrottledProgress V E) : List (ThrottleActions V E) →
    List (ThrottledProgress V E)
  | [] => [s]
  | a :: rest => s :: snapshotTrace (reducer s a) rest

/-- An action is a report (a `requestSuccess` or `requestFailed` dispatch),
as opposed to an `initialise`. -/
def isReportAction {V E : Type} : ThrottleActions V E → Bool
  | ThrottleActions.initialise _ => false
  | ThrottleActions.requestSuccess _ => true
  | ThrottleActions.requestFailed _ => true

/-- The payload carried by a report action is truthy (an `initialise`
carries no payload and counts as truthy vacuously). -/
def truthyPayload {V E : Type} [Truthy V] [Truthy E] :
    ThrottleActions V E → Bool
  | ThrottleActions.initialise _ => true
  | ThrottleActions.requestSuccess v => Truthy.truthy v
  | ThrottleActions.requestFailed e => Truthy.truthy e

/-- The number of completed requests recorded in a snapshot:
`values.length + errors.length`. -/
def completedCount {V E : Type} (s : ThrottledProgress V E) : Nat :=
  s.values.length + s.errors.length

/-- The specification's formula for the percentage field:
`round(100 * completed / total)`, defined as `0` when `total = 0`, computed
in exact rational arithmetic (`Math.round x = floor (x + 1/2)` for `x ≥ 0`). -/
def roundRatio (completed total : Nat) : Nat :=
  if total = 0 then 0
  else (200 * completed + total) / (2 * total)

/-- Events observable during a run of `throttleRequests`: a unit of work
(identified by its position) starts executing, or an in-flight unit
finishes. -/
inductive SchedEv where
  | start (id : Nat)
  | finish (id : Nat)

deriving instance DecidableEq for SchedEv

deriving instance Repr for SchedEv

/-- Removal of the element at index `i` — the source's
`queue.splice(queue.indexOf(promise), 1)`, where `indexOf` locates the
settled promise. -/
def removeAt {α : Type} : List α → Nat → List α
  | [], _ => []
  | _ :: xs, 0 => xs
  | x :: xs, n + 1 => x :: removeAt xs n

/-- The final `await Promise.all(queue)` of `throttleRequests`: every unit
still in flight finishes, in the real-time order chosen by the environment
(the `oracle` picks which in-flight unit settles next, as `Promise`
settlement order is outside the program's control).  The fuel is always
called with `queue.length`, which is exactly the number of settlements that
remain. -/
def drainQueue (oracle : List Nat → Nat) : Nat → List Nat → List SchedEv
  | 0, _ => []
  | _ + 1, [] => []
  | fuel + 1, x :: rest =>
      let q := x :: rest
      let i := oracle q % q.length
      SchedEv.finish (q.getD i 0) :: drainQueue oracle fuel (removeAt q i)

/-- The admission loop of the source's `throttleRequests`: for each pending
unit in order, start it and push its promise onto `queue`; if afterwards
`queue.length >= maxParallelRequests`, `await Promise.race(queue)` — the
loop resumes only after some in-flight unit has settled and (in its `then`
handler) spliced itself out of `queue`; the `oracle` picks which unit that
is.  In JavaScript no settlement handler can run while the loop body is
executing synchronously, so finishes are observed only at the `await`
points, which is how they are placed in the event trace. -/
def throttleLoop (maxParallelRequests : Int) (oracle : List Nat → Nat) :
    List Nat → List Nat → List SchedEv
  | [], queue => drainQueue oracle queue.length queue
  | u :: rest, queue =>
      let queue' := queue ++ [u]
      if (queue'.length : Int) ≥ maxParallelRequests then
        let i := oracle queue' % queue'.length
        SchedEv.start u :: SchedEv.finish (queue'.getD i 0) ::
          throttleLoop maxParallelRequests oracle rest (removeAt queue' i)
      else
        SchedEv.start u :: throttleLoop maxParallelRequests oracle rest queue'

/-- Source `throttleRequests(requestsToMake, maxParallelRequests)`: run the
admission loop starting from an empty queue and return the trace of
start/finish events.  Units are identified by `Nat` ids; per their contract
(`RequestToMake`, as constructed in `App.tsx`) a unit catches its own
errors, reports its outcome to the aggregator itself, and its promise
always resolves — so a unit failure is just a normal finish here. -/
def throttleRequests (requestsToMake : List Nat) (maxParallelRequests : Int)
    (oracle : List Nat → Nat) : List SchedEv :=
  throttleLoop maxParallelRequests oracle requestsToMake []

/-- Contribution of one event to the number of units in flight. -/
def inflightDelta : SchedEv → Int
  | SchedEv.start _ => 1
  | SchedEv.finish _ => -1

/-- Largest number of units simultaneously in flight over a trace, starting
from `cur` units in flight (the maximum of the running sums over every
prefix, the empty prefix included). -/
def maxInflight : Int → List SchedEv → Int
  | cur, [] => cur
  | cur, e :: rest => max cur (maxInflight (cur + inflightDelta e) rest)

/-- Whether an event is the start of a unit. -/
def isStartEv : SchedEv → Bool
  | SchedEv.start _ => true
  | SchedEv.finish _ => false

/-- Number of units started in a trace. -/
def startCount (t : List SchedEv) : Nat :=
  t.countP isStartEv

/-- Number of units finished in a trace. -/
def finishCount (t : List SchedEv) : Nat :=
  t.countP (fun e => !isStartEv e)

/-- The bit length of zero is zero, at any fuel. -/
theorem bitLenAux_zero : ∀ fuel, bitLenAux fuel 0 = 0
  | 0 => rfl
  | _ + 1 => by simp [bitLenAux]

/-- Fuel adequacy and correctness of the bit length: with fuel at least `n`,
the computed length `L` satisfies `2 ^ (L - 1) ≤ n < 2 ^ L`. -/
theorem bitLen_bounds_aux :
    ∀ (fuel n : Nat), n ≤ fuel → n ≠ 0 →
      2 ^ (bitLenAux fuel n - 1) ≤ n ∧ n < 2 ^ bitLenAux fuel n
  | 0, n, hle, hn => absurd (Nat.le_zero.mp hle) hn
  | fuel + 1, n, hle, hn => by
      simp only [bitLenAux, if_neg hn]
      by_cases h2 : n / 2 = 0
      · have hn1 : n = 1 := by omega
        subst hn1
        norm_num
        rw [bitLenAux_zero]
        decide
      · have ih := bitLen_bounds_aux fuel (n / 2) (by omega) h2
        set L := bitLenAux fuel (n / 2) with hL
        have hL1 : 1 ≤ L := by
          by_contra h
          have h0 : L = 0 := by omega
          rw [h0] at ih
          simp at ih
          omega
        have e1 : (2:ℕ) ^ L = 2 * 2 ^ (L - 1) := by
          conv_lhs => rw [show L = (L - 1) + 1 by omega]
          rw [pow_succ]
          ring
        have e2 : (2:ℕ) ^ (L + 1) = 2 * 2 ^ L := by
          rw [pow_succ]
          ring
        constructor
        · have h11 : L + 1 - 1 = L := by omega
          rw [h11, e1]
          omega
        · rw [e2]
          omega

/-- Correctness of `bitLen`: `2 ^ (bitLen n - 1) ≤ n < 2 ^ bitLen n`. -/
theorem bitLen_bounds (n : Nat) (hn : n ≠ 0) :
    2 ^ (bitLen n - 1) ≤ n ∧ n < 2 ^ bitLen n :=
  bitLen_bounds_aux n n (le_refl n) hn

/-- Zero completions give percentage zero (all three stages are exact on 0). -/
theorem jsPercentage_zero_left (t : Nat) : jsPercentage 0 t = 0 := by
  by_cases ht : t = 0
  · simp [jsPercentage, ht]
  · rw [jsPercentage, if_neg ht]
    rfl

/-- Dividing a nonzero count by itself is exact: the double is `1`,
represented as `2 ^ 52 * 2 ^ (-52)`. -/
theorem fdiv64_self (n : Nat) (hn : n ≠ 0) : fdiv64 n n = (2 ^ 52, -52) := by
  have h0 : 0 < n := Nat.pos_of_ne_zero hn
  have hflog : flog2 n n = 0 := by
    unfold flog2 le2exp
    simp
  rw [fdiv64, if_neg hn, hflog]
  simp only [Prod.mk.injEq]
  have h52 : (52 - (0:Int)).toNat = 52 := by decide
  have hneg : (-(52 - (0:Int))).toNat = 0 := by decide
  rw [h52, hneg, pow_zero, mul_one]
  have hq : n * 2 ^ 52 / n = 2 ^ 52 := Nat.mul_div_cancel_left _ h0
  have hr : n * 2 ^ 52 % n = 0 := Nat.mul_mod_right n _
  refine ⟨?_, by norm_num⟩
  unfold rne
  rw [hq, hr]
  have hcond : ¬ (2 * 0 > n ∨ (2 * 0 = n ∧ 2 ^ 52 % 2 = 1)) := by omega
  rw [if_neg hcond]

/-- A completed batch shows one hundred percent: `n / n` is exactly 1 in
binary64, `1 * 100` is exactly 100, and `Math.round 100 = 100`. -/
theorem jsPercentage_self (n : Nat) (hn : n ≠ 0) : jsPercentage n n = 100 := by
  rw [jsPercentage, if_neg hn, fdiv64_self n hn]
  decide

/-- Dyadic values are non-negative. -/
theorem dval_nonneg (p : Nat × Int) : 0 ≤ dval p := by
  unfold dval
  positivity

/-- Rounding to the nearest integer moves the value by at most one half. -/
theorem rne_le (N D : Nat) (hD : D ≠ 0) :
    |(rne N D : ℚ) - (N : ℚ) / D| ≤ 1 / 2 := by
  have hD0 : (0 : ℚ) < D := by exact_mod_cast Nat.pos_of_ne_zero hD
  have hrlt : N % D < D := Nat.mod_lt _ (Nat.pos_of_ne_zero hD)
  have hNq : (N : ℚ) = (D : ℚ) * ((N / D : ℕ) : ℚ) + ((N % D : ℕ) : ℚ) := by
    exact_mod_cast (Nat.div_add_mod N D).symm
  have hNdiv : (N : ℚ) / D = ((N / D : ℕ) : ℚ) + ((N % D : ℕ) : ℚ) / D := by
    rw [hNq]
    field_simp
    ring
  have hrd1 : ((N % D : ℕ) : ℚ) / D < 1 := (div_lt_one hD0).mpr (by exact_mod_cast hrlt)
  have hrd0 : (0 : ℚ) ≤ ((N % D : ℕ) : ℚ) / D := by positivity
  simp only [rne]
  split
  · rename_i hcond
    have h2r : D ≤ 2 * (N % D) := by omega
    have hrd : 1 / 2 ≤ ((N % D : ℕ) : ℚ) / D := by
      rw [div_le_div_iff (by norm_num) hD0]
      have : (D : ℚ) ≤ 2 * ((N % D : ℕ) : ℚ) := by exact_mod_cast h2r
      linarith
    rw [hNdiv]
    push_cast
    rw [abs_le]
    constructor <;> linarith
  · rename_i hcond
    have h2r : 2 * (N % D) ≤ D := by omega
    have hrd : ((N % D : ℕ) : ℚ) / D ≤ 1 / 2 := by
      rw [div_le_div_iff hD0 (by norm_num)]
      have : 2 * ((N % D : ℕ) : ℚ) ≤ D := by exact_mod_cast h2r
      linarith
    rw [hNdiv]
    push_cast
    rw [abs_le]
    constructor <;> linarith

/-- The two `toNat` shifts of `fdiv64` implement multiplication by `2 ^ s`. -/
theorem dyadic_shift (s : Int) :
    (2 : ℚ) ^ s.toNat / (2 : ℚ) ^ (-s).toNat = (2 : ℚ) ^ s := by
  rcases le_or_lt 0 s with h | h
  · have h1 : (-s).toNat = 0 := by omega
    have h2 : (s.toNat : ℤ) = s := Int.toNat_of_nonneg h
    rw [h1, pow_zero, div_one, ← zpow_natCast (2 : ℚ) s.toNat, h2]
  · have h1 : s.toNat = 0 := by omega
    have h2 : (((-s).toNat : ℕ) : ℤ) = -s := Int.toNat_of_nonneg (by omega)
    rw [h1, pow_zero, ← zpow_natCast (2 : ℚ) (-s).toNat, h2, one_div, ← zpow_neg, neg_neg]

/-- Lower bound of the exponent finder: `2 ^ flog2 c t ≤ c / t`. -/
theorem flog2_le (c t : Nat) (hc : c ≠ 0) (ht : t ≠ 0) :
    (2 : ℚ) ^ flog2 c t ≤ (c : ℚ) / t := by
  have ht0 : (0 : ℚ) < t := by exact_mod_cast Nat.pos_of_ne_zero ht
  have hcb := bitLen_bounds c hc
  have htb := bitLen_bounds t ht
  have hc1 : 1 ≤ bitLen c := by
    by_contra h
    have h0 : bitLen c = 0 := by omega
    rw [h0] at hcb
    simp at hcb
    omega
  have ht1 : 1 ≤ bitLen t := by
    by_contra h
    have h0 : bitLen t = 0 := by omega
    rw [h0] at htb
    simp at htb
    omega
  rw [le_div_iff ht0]
  unfold flog2
  by_cases hle : le2exp t ((bitLen c : Int) - (bitLen t : Int)) c
  · rw [if_pos hle]
    unfold le2exp at hle
    set k : Int := (bitLen c : Int) - (bitLen t : Int) with hk
    split at hle
    · rename_i hk0
      have hnat : t * 2 ^ k.toNat ≤ c := of_decide_eq_true hle
      have hcast : (2 : ℚ) ^ k * t = ((t * 2 ^ k.toNat : ℕ) : ℚ) := by
        push_cast
        rw [← zpow_natCast (2 : ℚ) k.toNat, Int.toNat_of_nonneg hk0]
        ring
      rw [hcast]
      exact_mod_cast hnat
    · rename_i hk0
      have hnat : t ≤ c * 2 ^ (-k).toNat := of_decide_eq_true hle
      have hkneg : (((-k).toNat : ℕ) : ℤ) = -k := Int.toNat_of_nonneg (by omega)
      have hcast : ((c * 2 ^ (-k).toNat : ℕ) : ℚ) = (c : ℚ) * (2 : ℚ) ^ (-k) := by
        push_cast
        rw [← zpow_natCast (2 : ℚ) (-k).toNat, hkneg]
      have h1 : (t : ℚ) ≤ (c : ℚ) * (2 : ℚ) ^ (-k) := by
        rw [← hcast]
        exact_mod_cast hnat
      have hpos : (0 : ℚ) < (2 : ℚ) ^ k := by positivity
      calc (2 : ℚ) ^ k * t ≤ (2 : ℚ) ^ k * ((c : ℚ) * (2 : ℚ) ^ (-k)) := by
            exact mul_le_mul_of_nonneg_left h1 (le_of_lt hpos)
        _ = (c : ℚ) * ((2 : ℚ) ^ k * (2 : ℚ) ^ (-k)) := by ring
        _ = (c : ℚ) := by
            rw [← zpow_add₀ (two_ne_zero) k (-k)]
            simp
  · rw [if_neg hle]
    set k : Int := (bitLen c : Int) - (bitLen t : Int) with hk
    have hcl : ((2 : ℚ) ^ (bitLen c - 1 : ℕ)) ≤ (c : ℚ) := by exact_mod_cast hcb.1
    have htu : (t : ℚ) < (2 : ℚ) ^ (bitLen t : ℕ) := by exact_mod_cast htb.2
    have hzpos : (0 : ℚ) < (2 : ℚ) ^ (k - 1) := by positivity
    have hexp : (2 : ℚ) ^ (k - 1) * (2 : ℚ) ^ (bitLen t : ℕ) = (2 : ℚ) ^ (bitLen c - 1 : ℕ) := by
      rw [← zpow_natCast (2 : ℚ) (bitLen t), ← zpow_natCast (2 : ℚ) (bitLen c - 1),
        ← zpow_add₀ (two_ne_zero)]
      congr 1
      omega
    have hfin : (2 : ℚ) ^ (k - 1) * t < (c : ℚ) := by
      calc (2 : ℚ) ^ (k - 1) * t < (2 : ℚ) ^ (k - 1) * (2 : ℚ) ^ (bitLen t : ℕ) := by
            exact mul_lt_mul_of_pos_left htu hzpos
        _ = (2 : ℚ) ^ (bitLen c - 1 : ℕ) := hexp
        _ ≤ (c : ℚ) := hcl
    exact le_of_lt hfin

/-- Halving a power of two lowers the exponent by one (written with the
`2 ^ 53` denominator used in the error bounds). -/
theorem zpow_half_shift (f : Int) :
    (1 / 2 : ℚ) * (2 : ℚ) ^ (f - 52) = (2 : ℚ) ^ f / (2 : ℚ) ^ (53 : ℕ) := by
  rw [← zpow_natCast (2 : ℚ) 53, one_div, ← zpow_neg_one (2 : ℚ),
    ← zpow_add₀ (two_ne_zero : (2:ℚ) ≠ 0), div_eq_mul_inv, ← zpow_neg,
    ← zpow_add₀ (two_ne_zero : (2:ℚ) ≠ 0)]
  congr 1
  omega

/-- Relative rounding error of the binary64 division: the result is within
`(c / t) / 2 ^ 53` of the exact quotient (one half of an ulp). -/
theorem fdiv64_err (c t : Nat) (hc : c ≠ 0) (ht : t ≠ 0) :
    |dval (fdiv64 c t) - (c : ℚ) / t| ≤ ((c : ℚ) / t) / 2 ^ 53 := by
  have ht0 : (0 : ℚ) < t := by exact_mod_cast Nat.pos_of_ne_zero ht
  set f := flog2 c t with hf
  set s : Int := 52 - f with hs
  set N := c * 2 ^ s.toNat with hN
  set D := t * 2 ^ (-s).toNat with hD
  have hDne : D ≠ 0 := by
    rw [hD]
    positivity
  have hD0 : (0 : ℚ) < D := by exact_mod_cast Nat.pos_of_ne_zero hDne
  have hfd : fdiv64 c t = (rne N D, f - 52) := by
    rw [fdiv64, if_neg hc]
  rw [hfd]
  have habs := rne_le N D hDne
  have hND : (N : ℚ) / (D : ℚ) = ((c : ℚ) / t) * (2 : ℚ) ^ s := by
    rw [hN, hD]
    push_cast
    rw [← dyadic_shift s]
    field_simp
  have hzpos : (0 : ℚ) < (2 : ℚ) ^ (f - 52) := by positivity
  have hct : (c : ℚ) / t = ((N : ℚ) / D) * (2 : ℚ) ^ (f - 52) := by
    rw [hND, mul_assoc, ← zpow_add₀ (two_ne_zero : (2:ℚ) ≠ 0)]
    rw [show s + (f - 52) = 0 by omega, zpow_zero, mul_one]
  have hdv : dval (rne N D, f - 52) = (rne N D : ℚ) * (2 : ℚ) ^ (f - 52) := rfl
  rw [hdv, hct]
  calc |(rne N D : ℚ) * (2 : ℚ) ^ (f - 52) - ((N : ℚ) / D) * (2 : ℚ) ^ (f - 52)|
      = |(rne N D : ℚ) - (N : ℚ) / D| * (2 : ℚ) ^ (f - 52) := by
        rw [← sub_mul, abs_mul, abs_of_pos hzpos]
    _ ≤ (1 / 2) * (2 : ℚ) ^ (f - 52) := by
        exact mul_le_mul_of_nonneg_right habs (le_of_lt hzpos)
    _ = (2 : ℚ) ^ f / 2 ^ 53 := zpow_half_shift f
    _ ≤ (((N : ℚ) / D) * (2 : ℚ) ^ (f - 52)) / 2 ^ 53 := by
        rw [← hct]
        have hle := flog2_le c t hc ht
        rw [← hf] at hle
        exact (div_le_div_right (by positivity)).mpr hle

/-- Relative rounding error of the binary64 multiplication by 100. -/
theorem fmul100_err (p : Nat × Int) :
    |dval (fmul100 p) - 100 * dval p| ≤ (100 * dval p) / 2 ^ 53 := by
  obtain ⟨m, e⟩ := p
  by_cases hL : bitLen (m * 100) ≤ 53
  · have hfm : fmul100 (m, e) = (m * 100, e) := by
      rw [fmul100, if_pos hL]
    rw [hfm]
    have hdv : dval (m * 100, e) = 100 * dval (m, e) := by
      unfold dval
      push_cast
      ring
    rw [hdv, sub_self, abs_zero]
    have := dval_nonneg (m, e)
    positivity
  · have hM : m * 100 ≠ 0 := by
      intro h0
      rw [h0] at hL
      exact hL (by rw [show bitLen 0 = 0 from rfl]; omega)
    set M := m * 100 with hMdef
    set r := bitLen M - 53 with hr
    have hfm : fmul100 (m, e) = (rne M (2 ^ r), (e + r : Int)) := by
      rw [fmul100, if_neg hL]
    rw [hfm]
    have habs := rne_le M (2 ^ r) (by positivity)
    have hMlow : 2 ^ (bitLen M - 1) ≤ M := (bitLen_bounds M hM).1
    have hr52 : bitLen M - 1 = r + 52 := by omega
    have h2r0 : (0 : ℚ) < (2 : ℚ) ^ (r : ℕ) := by positivity
    have hzpos : (0 : ℚ) < (2 : ℚ) ^ ((e : ℤ) + r) := by positivity
    have hdv100 : 100 * dval (m, e) = ((M : ℚ) / (2 : ℚ) ^ (r : ℕ)) * (2 : ℚ) ^ ((e : ℤ) + r) := by
      unfold dval
      rw [hMdef]
      push_cast
      rw [zpow_add₀ (two_ne_zero : (2:ℚ) ≠ 0), ← zpow_natCast (2 : ℚ) r]
      field_simp
      ring
    have hdv : dval (rne M (2 ^ r), (e + r : Int)) = (rne M (2 ^ r) : ℚ) * (2 : ℚ) ^ ((e : ℤ) + r) := rfl
    rw [hdv, hdv100]
    have hcast2r : ((2 ^ r : ℕ) : ℚ) = (2 : ℚ) ^ (r : ℕ) := by push_cast; rfl
    calc |(rne M (2 ^ r) : ℚ) * (2 : ℚ) ^ ((e : ℤ) + r) - ((M : ℚ) / (2 : ℚ) ^ (r : ℕ)) * (2 : ℚ) ^ ((e : ℤ) + r)|
        = |(rne M (2 ^ r) : ℚ) - (M : ℚ) / (2 : ℚ) ^ (r : ℕ)| * (2 : ℚ) ^ ((e : ℤ) + r) := by
          rw [← sub_mul, abs_mul, abs_of_pos hzpos]
      _ ≤ (1 / 2) * (2 : ℚ) ^ ((e : ℤ) + r) := by
          refine mul_le_mul_of_nonneg_right ?_ (le_of_lt hzpos)
          rw [← hcast2r]
          exact habs
      _ ≤ (((M : ℚ) / (2 : ℚ) ^ (r : ℕ)) * (2 : ℚ) ^ ((e : ℤ) + r)) / 2 ^ 53 := by
          -- M / 2^r ≥ 2^52, so RHS ≥ 2^52·2^(e+r)/2^53 = (1/2)·2^(e+r)
          have hM52 : (2 : ℚ) ^ (52 : ℕ) ≤ (M : ℚ) / (2 : ℚ) ^ (r : ℕ) := by
            rw [le_div_iff h2r0]
            have : (2 : ℕ) ^ 52 * 2 ^ r ≤ M := by
              calc (2 : ℕ) ^ 52 * 2 ^ r = 2 ^ (r + 52) := by rw [← pow_add]; congr 1; omega
                _ = 2 ^ (bitLen M - 1) := by rw [hr52]
                _ ≤ M := hMlow
            exact_mod_cast this
          have hhalf : (1 / 2 : ℚ) ≤ ((M : ℚ) / (2 : ℚ) ^ (r : ℕ)) / 2 ^ 53 := by
            have h1 : ((2 : ℚ) ^ (52 : ℕ)) / (2 : ℚ) ^ (53 : ℕ) = 1 / 2 := by
              norm_num
            rw [← h1]
            exact (div_le_div_right (by positivity)).mpr hM52
          calc (1 / 2 : ℚ) * (2 : ℚ) ^ ((e : ℤ) + r)
              ≤ (((M : ℚ) / (2 : ℚ) ^ (r : ℕ)) / 2 ^ 53) * (2 : ℚ) ^ ((e : ℤ) + r) :=
                mul_le_mul_of_nonneg_right hhalf (le_of_lt hzpos)
            _ = ((M : ℚ) / (2 : ℚ) ^ (r : ℕ)) * (2 : ℚ) ^ ((e : ℤ) + r) / 2 ^ 53 := by
                ring

/-- `mathRound` is `floor (value + 1 / 2)` on the exact value of its dyadic
argument — the ECMA-262 `Math.round` for non-negative doubles. -/
theorem mathRound_eq (p : Nat × Int) :
    mathRound p = Nat.floor (dval p + 1 / 2) := by
  obtain ⟨m, e⟩ := p
  rw [mathRound]
  split
  · rename_i he
    have hd : dval (m, e) = ((m * 2 ^ e.toNat : ℕ) : ℚ) := by
      unfold dval
      push_cast
      rw [← zpow_natCast (2 : ℚ) e.toNat, Int.toNat_of_nonneg he]
    have hhalf : (⌊(1 / 2 : ℚ)⌋₊ : ℕ) = 0 := by
      rw [Nat.floor_eq_zero]
      norm_num
    rw [hd, add_comm, Nat.floor_add_nat (by norm_num : (0:ℚ) ≤ 1/2), hhalf, Nat.zero_add]
  · rename_i he
    push_neg at he
    set k := (-e).toNat with hk
    have hk1 : 1 ≤ k := by omega
    have hpow : (2 : ℚ) ^ (k : ℕ) = 2 * (2 : ℚ) ^ (k - 1 : ℕ) := by
      conv_lhs => rw [show k = (k - 1) + 1 by omega]
      rw [pow_succ]
      ring
    have h2e : (2 : ℚ) ^ (e : ℤ) = ((2 : ℚ) ^ (k : ℕ))⁻¹ := by
      rw [← zpow_natCast (2 : ℚ) k, show ((k : ℕ) : ℤ) = -e by omega, zpow_neg, inv_inv]
    have hsum : dval (m, e) + 1 / 2 = ((m + 2 ^ (k - 1) : ℕ) : ℚ) / ((2 ^ k : ℕ) : ℚ) := by
      unfold dval
      rw [h2e]
      push_cast
      field_simp
      rw [hpow]
      ring
    rw [hsum, Nat.floor_div_nat, Nat.floor_natCast]

/-- The double-precision percentage is monotone in the completed count, for
counts up to `2 ^ 50` (far beyond the `2 ^ 32` bound of JavaScript arrays):
the increase of the exact ratio by at least `1 / t` dominates the combined
rounding errors of the two binary64 operations. -/
theorem jsPercentage_mono (t : Nat) (ht : t ≠ 0) (c c' : Nat) (hcc : c ≤ c')
    (hbound : c' ≤ 2 ^ 50) : jsPercentage c t ≤ jsPercentage c' t := by
  rcases Nat.eq_zero_or_pos c with rfl | hc0
  · rw [jsPercentage_zero_left]
    exact Nat.zero_le _
  rcases eq_or_lt_of_le hcc with rfl | hlt
  · exact le_refl _
  have hc : c ≠ 0 := by omega
  have hc' : c' ≠ 0 := by omega
  have ht0 : (0 : ℚ) < t := by exact_mod_cast Nat.pos_of_ne_zero ht
  rw [jsPercentage, jsPercentage, if_neg ht, if_neg ht, mathRound_eq, mathRound_eq]
  apply Nat.floor_mono
  apply add_le_add_right
  set x : ℚ := (c : ℚ) / t with hx
  set y : ℚ := (c' : ℚ) / t with hy
  set vA := dval (fdiv64 c t) with hvA
  set vB := dval (fdiv64 c' t) with hvB
  set wA := dval (fmul100 (fdiv64 c t)) with hwA
  set wB := dval (fmul100 (fdiv64 c' t)) with hwB
  obtain ⟨hA1, hA2⟩ := abs_le.mp (fdiv64_err c t hc ht)
  obtain ⟨hB1, hB2⟩ := abs_le.mp (fdiv64_err c' t hc' ht)
  obtain ⟨hA3, hA4⟩ := abs_le.mp (fmul100_err (fdiv64 c t))
  obtain ⟨hB3, hB4⟩ := abs_le.mp (fmul100_err (fdiv64 c' t))
  have hxy : x + 1 / t ≤ y := by
    rw [hx, hy, div_add_div_same]
    have h1 : (c : ℚ) + 1 ≤ (c' : ℚ) := by exact_mod_cast hlt
    exact (div_le_div_right ht0).mpr h1
  have hxb : x ≤ (2 ^ 50 - 1) * (1 / t) := by
    have h2 : c + 1 ≤ 2 ^ 50 := by omega
    have h3 : (c : ℚ) + 1 ≤ 2 ^ 50 := by exact_mod_cast h2
    have hxmul : x = (c : ℚ) * (1 / t) := by
      rw [hx]
      ring
    rw [hxmul]
    exact mul_le_mul_of_nonneg_right (by linarith) (by positivity)
  have hx0 : 0 ≤ x := by positivity
  have hy0 : 0 ≤ y := by positivity
  have hit0 : (0 : ℚ) < 1 / t := by positivity
  linarith

variable {V E : Type} [Truthy V] [Truthy E]

/-- A report action leaves `totalRequests` unchanged. -/
theorem reducer_report_totalRequests (s : ThrottledProgress V E)
    (a : ThrottleActions V E) (h : isReportAction a = true) :
    (reducer s a).totalRequests = s.totalRequests := by
  cases a with
  | initialise n => simp [isReportAction] at h
  | requestSuccess v => rfl
  | requestFailed e => rfl

/-- A report action grows the completed count by one when its payload is
truthy and leaves it unchanged otherwise. -/
theorem reducer_report_completedCount (s : ThrottledProgress V E)
    (a : ThrottleActions V E) (h : isReportAction a = true) :
    completedCount (reducer s a)
      = completedCount s + (if truthyPayload a then 1 else 0) := by
  cases a with
  | initialise n => simp [isReportAction] at h
  | requestSuccess v =>
      by_cases hv : Truthy.truthy v <;>
        simp [reducer, updateThrottledProgress, completedCount, truthyPayload, hv] <;>
        omega
  | requestFailed e =>
      by_cases he : Truthy.truthy e <;>
        simp [reducer, updateThrottledProgress, completedCount, truthyPayload, he] <;>
        omega

/-- After any dispatched action, the stored `percentageLoaded` equals the
double-precision percentage of the stored counts. -/
theorem reducer_percentage_eq (s : ThrottledProgress V E)
    (a : ThrottleActions V E) :
    (reducer s a).percentageLoaded
      = jsPercentage (completedCount (reducer s a)) (reducer s a).totalRequests := by
  cases a with
  | initialise n =>
      simp [reducer, createThrottledProgress, completedCount, jsPercentage_zero_left]
  | requestSuccess v =>
      by_cases hv : Truthy.truthy v <;>
        simp [reducer, updateThrottledProgress, completedCount, hv, Nat.add_comm]
  | requestFailed e =>
      by_cases he : Truthy.truthy e <;>
        simp [reducer, updateThrottledProgress, completedCount, he, Nat.add_comm]

/-- After a report action the stored `loading` flag is the source's guarded
comparison of the (new) completed count against `totalRequests`. -/
theorem reducer_report_loading (s : ThrottledProgress V E)
    (a : ThrottleActions V E) (h : isReportAction a = true) :
    (reducer s a).loading
      = if s.totalRequests = 0 then false
        else decide (completedCount (reducer s a) < s.totalRequests) := by
  cases a with
  | initialise n => simp [isReportAction] at h
  | requestSuccess v =>
      by_cases hv : Truthy.truthy v <;>
        simp [reducer, updateThrottledProgress, completedCount, hv, Nat.add_comm]
  | requestFailed e =>
      by_cases he : Truthy.truthy e <;>
        simp [reducer, updateThrottledProgress, completedCount, he, Nat.add_comm]

/-- Dispatching report actions never changes `totalRequests`. -/
theorem dispatchAll_totalRequests (acts : List (ThrottleActions V E))
    (s : ThrottledProgress V E) (h : ∀ a ∈ acts, isReportAction a = true) :
    (dispatchAll s acts).totalRequests = s.totalRequests := by
  induction acts generalizing s with
  | nil => rfl
  | cons a rest ih =>
      have ha := h a (List.mem_cons_self a rest)
      have hrest : ∀ b ∈ rest, isReportAction b = true :=
        fun b hb => h b (List.mem_cons_of_mem a hb)
      calc (dispatchAll (reducer s a) rest).totalRequests
          = (reducer s a).totalRequests := ih (reducer s a) hrest
        _ = s.totalRequests := reducer_report_totalRequests s a ha

/-- Dispatching report actions grows the completed count by exactly the
number of truthy payloads among them. -/
theorem dispatchAll_completedCount (acts : List (ThrottleActions V E))
    (s : ThrottledProgress V E) (h : ∀ a ∈ acts, isReportAction a = true) :
    completedCount (dispatchAll s acts)
      = completedCount s + acts.countP truthyPayload := by
  induction acts generalizing s with
  | nil => simp [dispatchAll]
  | cons a rest ih =>
      have ha := h a (List.mem_cons_self a rest)
      have hrest : ∀ b ∈ rest, isReportAction b = true :=
        fun b hb => h b (List.mem_cons_of_mem a hb)
      have hstep := reducer_report_completedCount s a ha
      have htail := ih (reducer s a) hrest
      rw [List.countP_cons]
      change completedCount (dispatchAll (reducer s a) rest) = _
      rw [htail, hstep]
      by_cases hp : truthyPayload a = true <;> simp [hp] <;> omega

/-- The percentage/count relation, once established, is preserved by every
further dispatch. -/
theorem dispatchAll_percentage (acts : List (ThrottleActions V E))
    (s : ThrottledProgress V E)
    (hs : s.percentageLoaded = jsPercentage (completedCount s) s.totalRequests) :
    (dispatchAll s acts).percentageLoaded
      = jsPercentage (completedCount (dispatchAll s acts))
          (dispatchAll s acts).totalRequests := by
  induction acts generalizing s with
  | nil => exact hs
  | cons a rest ih => exact ih (reducer s a) (reducer_percentage_eq s a)

/-- After at least one report has been dispatched, `loading` is the guarded
comparison of the completed count against the (unchanged) total. -/
theorem dispatchAll_cons_loading :
    ∀ (rest : List (ThrottleActions V E)) (a : ThrottleActions V E)
      (s : ThrottledProgress V E),
      (∀ b ∈ a :: rest, isReportAction b = true) →
      (dispatchAll s (a :: rest)).loading
        = if s.totalRequests = 0 then false
          else decide (completedCount (dispatchAll s (a :: rest)) < s.totalRequests)
  | [], a, s, h => by
      simpa [dispatchAll] using
        reducer_report_loading s a (h a (List.mem_cons_self a []))
  | b :: rest2, a, s, h => by
      have ha := h a (List.mem_cons_self a (b :: rest2))
      have h2 : ∀ c ∈ b :: rest2, isReportAction c = true :=
        fun c hc => h c (List.mem_cons_of_mem a hc)
      have htail := dispatchAll_cons_loading rest2 b (reducer s a) h2
      rw [reducer_report_totalRequests s a ha] at htail
      exact htail

/-- The head of a snapshot trace is its start state. -/
theorem snapshotTrace_head (s : ThrottledProgress V E)
    (acts : List (ThrottleActions V E)) :
    (snapshotTrace s acts).head? = some s := by
  cases acts <;> rfl

/-- Along a trace of report actions whose start state satisfies the
percentage/count relation and whose counts stay below `2 ^ 50`,
`percentageLoaded` is non-decreasing between successive snapshots. -/
theorem snapshotTrace_chain_mono :
    ∀ (acts : List (ThrottleActions V E)) (s : ThrottledProgress V E),
      s.percentageLoaded = jsPercentage (completedCount s) s.totalRequests →
      completedCount s + acts.length ≤ 2 ^ 50 →
      (∀ a ∈ acts, isReportAction a = true) →
      List.Chain' (fun x y => x.percentageLoaded ≤ y.percentageLoaded)
        (snapshotTrace s acts)
  | [], s, _, _, _ => by simp [snapshotTrace]
  | a :: rest, s, hs, hb, h => by
      have ha := h a (List.mem_cons_self a rest)
      have hrest : ∀ b ∈ rest, isReportAction b = true :=
        fun b hb2 => h b (List.mem_cons_of_mem a hb2)
      have hcnt' := reducer_report_completedCount s a ha
      have hcnt : completedCount s ≤ completedCount (reducer s a) := by
        rw [hcnt']
        exact Nat.le_add_right _ _
      have hcnt1 : completedCount (reducer s a) ≤ completedCount s + 1 := by
        rw [hcnt']
        split <;> omega
      have hlcons : (a :: rest).length = rest.length + 1 := rfl
      have hstep : s.percentageLoaded ≤ (reducer s a).percentageLoaded := by
        rw [hs, reducer_percentage_eq s a, reducer_report_totalRequests s a ha]
        by_cases ht : s.totalRequests = 0
        · rw [ht]
          simp [jsPercentage]
        · exact jsPercentage_mono s.totalRequests ht _ _ hcnt (by omega)
      have htail := snapshotTrace_chain_mono rest (reducer s a)
        (reducer_percentage_eq s a) (by omega) hrest
      rw [snapshotTrace]
      refine List.chain'_cons'.mpr ⟨?_, htail⟩
      intro y hy
      rw [snapshotTrace_head] at hy
      simp only [Option.mem_def, Option.some.injEq] at hy
      exact hy ▸ hstep

/-- Claim C1, counterexample: the snapshot produced by the `initialise`
action with `totalRequests = 1 > 0` does NOT have `loading = true` — the
source's `createThrottledProgress` sets `loading: false` unconditionally. -/
theorem claim_c1_counterexample :
    (createThrottledProgress 1 : ThrottledProgress Int Int).loading ≠ true := by
  decide

/-- Claim C1, amended: the snapshot produced by `initialise n` has
`loading = false` even for `n > 0`; after at least one report action has
been dispatched, `loading` is `true` exactly while
`len(values) + len(errors) < n` (and is `false` whenever `n = 0`). -/
theorem claim_c1_theorem (n : Nat) (acts : List (ThrottleActions V E))
    (hne : acts ≠ []) (hrep : ∀ a ∈ acts, isReportAction a = true) :
    (createThrottledProgress n : ThrottledProgress V E).loading = false
    ∧ (dispatchAll (createThrottledProgress n) acts).loading
        = (decide (0 < n) &&
            decide (completedCount (dispatchAll (createThrottledProgress n) acts) < n)) := by
  refine ⟨rfl, ?_⟩
  obtain ⟨a, rest, rfl⟩ := List.exists_cons_of_ne_nil hne
  rw [dispatchAll_cons_loading rest a _ hrep]
  rcases Nat.eq_zero_or_pos n with h0 | h0
  · simp [createThrottledProgress, h0]
  · have hne0 : ¬ n = 0 := by omega
    simp [createThrottledProgress, hne0, h0]

/-- Claim C1, witness: batch of 2 with one truthy success dispatched. -/
theorem claim_c1_witness :
    (createThrottledProgress 2 : ThrottledProgress Int Int).loading = false
    ∧ (dispatchAll (createThrottledProgress 2 : ThrottledProgress Int Int)
        [ThrottleActions.requestSuccess 5]).loading
        = (decide (0 < 2) &&
            decide (completedCount (dispatchAll
              (createThrottledProgress 2 : ThrottledProgress Int Int)
              [ThrottleActions.requestSuccess 5]) < 2)) :=
  claim_c1_theorem 2 [ThrottleActions.requestSuccess 5] (by decide) (by decide)

/-- Claim C2, counterexample: a batch of 1 whose single unit reports success
with the falsy value `0` ends with `values.length + errors.length = 0 ≠ 1` —
the reducer silently drops falsy payloads. -/
theorem claim_c2_counterexample :
    completedCount (dispatchAll (createThrottledProgress 1 : ThrottledProgress Int Int)
      [ThrottleActions.requestSuccess 0]) ≠ 1 := by
  decide

/-- Claim C2, amended: if each of the `n` units reports exactly one outcome
whose payload is truthy, then whatever the order of the `n` reports, the
final snapshot has `values.length + errors.length = n`. -/
theorem claim_c2_theorem (n : Nat) (acts : List (ThrottleActions V E))
    (hrep : ∀ a ∈ acts, isReportAction a = true)
    (htr : ∀ a ∈ acts, truthyPayload a = true)
    (hlen : acts.length = n) :
    completedCount (dispatchAll (createThrottledProgress n) acts) = n := by
  rw [dispatchAll_completedCount acts _ hrep]
  have hcnt : acts.countP truthyPayload = acts.length :=
    List.countP_eq_length.mpr htr
  simp [completedCount, createThrottledProgress, hcnt, hlen]

/-- Claim C2, witness: batch of 3, outcomes success-failure-success. -/
theorem claim_c2_witness :
    completedCount (dispatchAll (createThrottledProgress 3 : ThrottledProgress Int Int)
      [ThrottleActions.requestSuccess 1, ThrottleActions.requestFailed 2,
        ThrottleActions.requestSuccess 3]) = 3 :=
  claim_c2_theorem 3
    [ThrottleActions.requestSuccess 1, ThrottleActions.requestFailed 2,
      ThrottleActions.requestSuccess 3] (by decide) (by decide) (by decide)

/-- Claim C3, counterexample: dispatching `requestSuccess` with the falsy
value `0` on a fresh batch of 1 leaves `values` empty instead of appending
`0` to it. -/
theorem claim_c3_counterexample :
    (reducer (createThrottledProgress 1 : ThrottledProgress Int Int)
      (ThrottleActions.requestSuccess 0)).values ≠ [0] := by
  decide

/-- Claim C3, amended: for a truthy value `v`, `requestSuccess v` appends
`v` at the end of `values` and leaves `errors` unchanged; symmetrically,
for a truthy error `e`, `requestFailed e` appends `e` at the end of
`errors` and leaves `values` unchanged.  (A falsy payload is appended to
neither list.) -/
theorem claim_c3_theorem (s : ThrottledProgress V E) (v : V) (e : E)
    (hv : Truthy.truthy v = true) (he : Truthy.truthy e = true) :
    (reducer s (ThrottleActions.requestSuccess v)).values = s.values ++ [v]
    ∧ (reducer s (ThrottleActions.requestSuccess v)).errors = s.errors
    ∧ (reducer s (ThrottleActions.requestFailed e)).errors = s.errors ++ [e]
    ∧ (reducer s (ThrottleActions.requestFailed e)).values = s.values := by
  refine ⟨?_, ?_, ?_, ?_⟩ <;> simp [reducer, updateThrottledProgress, hv, he]

/-- Claim C3, witness: truthy payloads 5 and 7 on a snapshot mid-batch. -/
theorem claim_c3_witness :
    (reducer (createThrottledProgress 2 : ThrottledProgress Int Int)
        (ThrottleActions.requestSuccess 5)).values
      = (createThrottledProgress 2 : ThrottledProgress Int Int).values ++ [5]
    ∧ (reducer (createThrottledProgress 2 : ThrottledProgress Int Int)
        (ThrottleActions.requestSuccess 5)).errors
      = (createThrottledProgress 2 : ThrottledProgress Int Int).errors
    ∧ (reducer (createThrottledProgress 2 : ThrottledProgress Int Int)
        (ThrottleActions.requestFailed 7)).errors
      = (createThrottledProgress 2 : ThrottledProgress Int Int).errors ++ [7]
    ∧ (reducer (createThrottledProgress 2 : ThrottledProgress Int Int)
        (ThrottleActions.requestFailed 7)).values
      = (createThrottledProgress 2 : ThrottledProgress Int Int).values :=
  claim_c3_theorem (createThrottledProgress 2) 5 7 (by decide) (by decide)

/-- Claim C5, counterexample: after `initialise 1` followed by two truthy
success reports, the snapshot has `values.length + errors.length = 2 > 1 =
totalRequests` — the reducer has no guard against excess reports and the
invariant is corrupted. -/
theorem claim_c5_counterexample :
    ¬ completedCount (dispatchAll (createThrottledProgress 1 : ThrottledProgress Int Int)
        [ThrottleActions.requestSuccess 1, ThrottleActions.requestSuccess 2])
      ≤ (dispatchAll (createThrottledProgress 1 : ThrottledProgress Int Int)
        [ThrottleActions.requestSuccess 1, ThrottleActions.requestSuccess 2]).totalRequests := by
  decide

/-- Claim C5, amended: the invariant `len(values) + len(errors) ≤
totalRequests` holds in every snapshot reachable from `initialise n`
provided at most `n` report actions are dispatched (which the scheduler
contract guarantees); excess reports are not clamped and do corrupt it. -/
theorem claim_c5_theorem (n : Nat) (acts : List (ThrottleActions V E))
    (hrep : ∀ a ∈ acts, isReportAction a = true) (hlen : acts.length ≤ n) :
    completedCount (dispatchAll (createThrottledProgress n) acts)
      ≤ (dispatchAll (createThrottledProgress n) acts).totalRequests := by
  rw [dispatchAll_completedCount acts _ hrep, dispatchAll_totalRequests acts _ hrep]
  have hcnt : acts.countP truthyPayload ≤ acts.length :=
    List.countP_le_length _
  simp only [completedCount, createThrottledProgress, List.length_nil]
  omega

/-- Claim C5, witness: batch of 2 with one report dispatched so far. -/
theorem claim_c5_witness :
    completedCount (dispatchAll (createThrottledProgress 2 : ThrottledProgress Int Int)
        [ThrottleActions.requestSuccess 1])
      ≤ (dispatchAll (createThrottledProgress 2 : ThrottledProgress Int Int)
        [ThrottleActions.requestSuccess 1]).totalRequests :=
  claim_c5_theorem 2 [ThrottleActions.requestSuccess 1] (by decide) (by decide)

/-- Claim C6, counterexample: a batch of 1 whose single report carries the
falsy value `0` ends with `percentageLoaded = 0`, not `100`, even though
all `n = 1` outcomes were reported. -/
theorem claim_c6_counterexample :
    (dispatchAll (createThrottledProgress 1 : ThrottledProgress Int Int)
      [ThrottleActions.requestSuccess 0]).percentageLoaded ≠ 100 := by
  decide

/-- Claim C6, amended: within one batch (`initialise n` followed by at most
`2 ^ 32` report actions — more reports than that are impossible, since the
counts are JavaScript array lengths, which are below `2 ^ 32`)
`percentageLoaded` is non-decreasing across the successive snapshots; it
ends at 100 when all `n` outcomes are reported with truthy payloads and
`n > 0`, and stays 0 when `n = 0`. -/
theorem claim_c6_theorem (n : Nat) (acts : List (ThrottleActions V E))
    (hrep : ∀ a ∈ acts, isReportAction a = true)
    (hlen32 : acts.length ≤ 2 ^ 32) :
    List.Chain' (fun x y => x.percentageLoaded ≤ y.percentageLoaded)
      (snapshotTrace (createThrottledProgress n) acts)
    ∧ ((∀ a ∈ acts, truthyPayload a = true) → acts.length = n → 0 < n →
        (dispatchAll (createThrottledProgress n) acts).percentageLoaded = 100)
    ∧ (n = 0 →
        (dispatchAll (createThrottledProgress n) acts).percentageLoaded = 0) := by
  have hstart : (createThrottledProgress n : ThrottledProgress V E).percentageLoaded
      = jsPercentage (completedCount (createThrottledProgress n : ThrottledProgress V E))
          (createThrottledProgress n : ThrottledProgress V E).totalRequests := by
    simp [createThrottledProgress, completedCount, jsPercentage_zero_left]
  have hcb : completedCount (createThrottledProgress n : ThrottledProgress V E)
      + acts.length ≤ 2 ^ 50 := by
    have h1 : completedCount (createThrottledProgress n : ThrottledProgress V E) = 0 := rfl
    have h2 : (2 : ℕ) ^ 32 ≤ 2 ^ 50 := by norm_num
    omega
  refine ⟨snapshotTrace_chain_mono acts _ hstart hcb hrep, ?_, ?_⟩
  · intro htr hlen hpos
    rw [dispatchAll_percentage acts _ hstart,
      dispatchAll_completedCount acts _ hrep, dispatchAll_totalRequests acts _ hrep]
    have hcnt : acts.countP truthyPayload = acts.length :=
      List.countP_eq_length.mpr htr
    simp only [completedCount, createThrottledProgress, List.length_nil,
      Nat.zero_add, hcnt, hlen]
    exact jsPercentage_self n (by omega)
  · intro h0
    rw [dispatchAll_percentage acts _ hstart, dispatchAll_totalRequests acts _ hrep]
    simp [createThrottledProgress, h0, jsPercentage]

/-- Claim C6, witness: scenario D — batch of 4, reports success, success,
failure, success, all truthy. -/
theorem claim_c6_witness :
    List.Chain' (fun x y => x.percentageLoaded ≤ y.percentageLoaded)
      (snapshotTrace (createThrottledProgress 4 : ThrottledProgress Int Int)
        ([ThrottleActions.requestSuccess 1, ThrottleActions.requestSuccess 2,
          ThrottleActions.requestFailed 3, ThrottleActions.requestSuccess 4]
          : List (ThrottleActions Int Int)))
    ∧ ((∀ a ∈ ([ThrottleActions.requestSuccess 1, ThrottleActions.requestSuccess 2,
          ThrottleActions.requestFailed 3, ThrottleActions.requestSuccess 4]
          : List (ThrottleActions Int Int)), truthyPayload a = true) →
        ([ThrottleActions.requestSuccess 1, ThrottleActions.requestSuccess 2,
          ThrottleActions.requestFailed 3, ThrottleActions.requestSuccess 4]
          : List (ThrottleActions Int Int)).length = 4 →
        0 < 4 →
        (dispatchAll (createThrottledProgress 4 : ThrottledProgress Int Int)
          ([ThrottleActions.requestSuccess 1, ThrottleActions.requestSuccess 2,
            ThrottleActions.requestFailed 3, ThrottleActions.requestSuccess 4]
            : List (ThrottleActions Int Int))).percentageLoaded = 100)
    ∧ (4 = 0 →
        (dispatchAll (createThrottledProgress 4 : ThrottledProgress Int Int)
          ([ThrottleActions.requestSuccess 1, ThrottleActions.requestSuccess 2,
            ThrottleActions.requestFailed 3, ThrottleActions.requestSuccess 4]
            : List (ThrottleActions Int Int))).percentageLoaded = 0) :=
  claim_c6_theorem 4
    ([ThrottleActions.requestSuccess 1, ThrottleActions.requestSuccess 2,
      ThrottleActions.requestFailed 3, ThrottleActions.requestSuccess 4]
      : List (ThrottleActions Int Int))
    (by decide) (by norm_num)

/-- Claim C7, counterexample: after 23 of 40 truthy reports — a state the
program reaches — the stored percentage is 57, computed in binary64
(`(23/40)*100` is the double `57.49999999999999`), while the exact
`round(100 * 23 / 40) = round(57.5)` of the claim is 58. -/
theorem claim_c7_counterexample :
    (dispatchAll (createThrottledProgress 40 : ThrottledProgress Int Int)
      (List.replicate 23 (ThrottleActions.requestSuccess 1))).percentageLoaded = 57
    ∧ completedCount (dispatchAll (createThrottledProgress 40 : ThrottledProgress Int Int)
        (List.replicate 23 (ThrottleActions.requestSuccess 1))) = 23
    ∧ (dispatchAll (createThrottledProgress 40 : ThrottledProgress Int Int)
        (List.replicate 23 (ThrottleActions.requestSuccess 1))).totalRequests = 40
    ∧ roundRatio 23 40 = 58 := by
  decide

/-- Claim C7, amended: in every snapshot reachable by dispatching any
action sequence after `initialise n`, the stored `percentageLoaded` equals
`Math.round(((len(errors) + len(values)) / totalRequests) * 100)` computed
in IEEE binary64 (`jsPercentage`), defined as 0 when `totalRequests = 0`;
this differs from the exact `round(100 * count / total)` by one at
double-rounding boundaries such as 23 of 40.  `initialise 0` immediately
yields `totalRequests = 0`, `percentageLoaded = 0`, `loading = false`. -/
theorem claim_c7_theorem (n : Nat) (acts : List (ThrottleActions V E)) :
    (dispatchAll (createThrottledProgress n) acts).percentageLoaded
      = jsPercentage (completedCount (dispatchAll (createThrottledProgress n) acts))
          (dispatchAll (createThrottledProgress n) acts).totalRequests
    ∧ (createThrottledProgress 0 : ThrottledProgress V E).totalRequests = 0
    ∧ (createThrottledProgress 0 : ThrottledProgress V E).percentageLoaded = 0
    ∧ (createThrottledProgress 0 : ThrottledProgress V E).loading = false := by
  refine ⟨?_, rfl, rfl, rfl⟩
  exact dispatchAll_percentage acts _
    (by simp [createThrottledProgress, completedCount, jsPercentage_zero_left])

/-- Claim C9, confirmed: from any prior state — including one with
non-empty `values`/`errors` — the `initialise n` action returns the fresh
snapshot `createThrottledProgress n`, whose `totalRequests` is `n` and
whose `values` and `errors` are empty; no prior data is merged. -/
theorem claim_c9_theorem (s : ThrottledProgress V E) (n : Nat) :
    reducer s (ThrottleActions.initialise n) = createThrottledProgress n
    ∧ (createThrottledProgress n : ThrottledProgress V E).totalRequests = n
    ∧ (createThrottledProgress n : ThrottledProgress V E).values = []
    ∧ (createThrottledProgress n : ThrottledProgress V E).errors = []
    ∧ (createThrottledProgress n : ThrottledProgress V E).percentageLoaded = 0
    ∧ (createThrottledProgress n : ThrottledProgress V E).loading = false :=
  ⟨rfl, rfl, rfl, rfl, rfl, rfl⟩

/-- Claim C10, counterexample: dispatching `requestSuccess` with the falsy
value `0` on the snapshot produced by `initialise 2` does NOT return an
equal snapshot: nothing is appended, but `loading` is recomputed from the
counts and flips from `false` to `true`. -/
theorem claim_c10_counterexample :
    reducer (createThrottledProgress 2 : ThrottledProgress Int Int)
        (ThrottleActions.requestSuccess 0)
      ≠ (createThrottledProgress 2 : ThrottledProgress Int Int) := by
  decide

/-- Claim C10, amended: a falsy payload appends nothing to `values` or
`errors` and leaves `totalRequests` unchanged, but `percentageLoaded` and
`loading` are recomputed from the unchanged counts (the percentage in
binary64, `jsPercentage`); the returned snapshot equals the current one in
every field exactly when the current snapshot already agrees with those
recomputed values (as any snapshot produced by a report action does — but
the fresh `initialise n > 0` snapshot, whose `loading` is `false`, does
not). -/
theorem claim_c10_theorem (s : ThrottledProgress V E) (v : V) (e : E)
    (hv : Truthy.truthy v = false) (he : Truthy.truthy e = false) :
    (reducer s (ThrottleActions.requestSuccess v)).values = s.values
    ∧ (reducer s (ThrottleActions.requestSuccess v)).errors = s.errors
    ∧ (reducer s (ThrottleActions.requestSuccess v)).totalRequests = s.totalRequests
    ∧ (reducer s (ThrottleActions.requestFailed e)).values = s.values
    ∧ (reducer s (ThrottleActions.requestFailed e)).errors = s.errors
    ∧ (reducer s (ThrottleActions.requestFailed e)).totalRequests = s.totalRequests
    ∧ ((s.percentageLoaded = jsPercentage (completedCount s) s.totalRequests
          ∧ s.loading = (if s.totalRequests = 0 then false
              else decide (completedCount s < s.totalRequests))) →
        reducer s (ThrottleActions.requestSuccess v) = s
        ∧ reducer s (ThrottleActions.requestFailed e) = s) := by
  obtain ⟨t, errs, vals, pct, ld⟩ := s
  refine ⟨?_, ?_, ?_, ?_, ?_, ?_, ?_⟩
  · simp [reducer, updateThrottledProgress, hv]
  · simp [reducer, updateThrottledProgress, hv]
  · simp [reducer, updateThrottledProgress, hv]
  · simp [reducer, updateThrottledProgress, he]
  · simp [reducer, updateThrottledProgress, he]
  · simp [reducer, updateThrottledProgress, he]
  · rintro ⟨hp, hl⟩
    simp only [completedCount] at hp hl
    rw [hp, hl]
    constructor <;>
      simp [reducer, updateThrottledProgress, hv, he, Nat.add_comm]

/-- A mid-batch snapshot used as the concrete input of the witness below:
two requests, one truthy success already recorded, so the stored percentage
(50) and loading flag (true) agree with the recomputed ones. -/
def midBatchSnapshot : ThrottledProgress Int Int :=
  { totalRequests := 2
    errors := []
    values := [5]
    percentageLoaded := 50
    loading := true }

/-- Claim C10, witness: the mid-batch snapshot is returned unchanged, in
every field, by a falsy success report and by a falsy failure report. -/
theorem claim_c10_witness :
    reducer midBatchSnapshot (ThrottleActions.requestSuccess 0) = midBatchSnapshot
    ∧ reducer midBatchSnapshot (ThrottleActions.requestFailed 0) = midBatchSnapshot :=
  (claim_c10_theorem midBatchSnapshot 0 0 (by decide) (by decide)).2.2.2.2.2.2
    (by decide)

/-- Removing an element at an in-range index shortens the list by one. -/
theorem removeAt_length {α : Type} :
    ∀ (l : List α) (i : Nat), i < l.length → (removeAt l i).length + 1 = l.length
  | [], i, h => by simp at h
  | _ :: xs, 0, _ => by simp [removeAt]
  | x :: xs, n + 1, h => by
      have ih := removeAt_length xs n (by simpa using h)
      simp only [removeAt, List.length_cons]
      omega

/-- During the final drain the in-flight count only decreases, so its
maximum over the drain is the count at the start of the drain. -/
theorem maxInflight_drainQueue (oracle : List Nat → Nat) :
    ∀ (fuel : Nat) (q : List Nat) (cur : Int),
      maxInflight cur (drainQueue oracle fuel q) ≤ cur
  | 0, _, cur => le_refl cur
  | _ + 1, [], cur => le_refl cur
  | fuel + 1, x :: rest, cur => by
      have ih := maxInflight_drainQueue oracle fuel
        (removeAt (x :: rest) (oracle (x :: rest) % (x :: rest).length)) (cur + -1)
      simp only [drainQueue, maxInflight, inflightDelta]
      exact max_le (le_refl cur) (le_trans ih (by omega))

/-- Ceiling invariant of the admission loop: if the queue currently holds
at most `max (limit - 1) 0` promises (as it does at every loop entry), the
in-flight count never exceeds `max limit 1` for the rest of the run. -/
theorem maxInflight_throttleLoop (limit : Int) (oracle : List Nat → Nat) :
    ∀ (pending queue : List Nat),
      (queue.length : Int) ≤ max (limit - 1) 0 →
      maxInflight (queue.length : Int) (throttleLoop limit oracle pending queue)
        ≤ max limit 1
  | [], queue, h => by
      have hd := maxInflight_drainQueue oracle queue.length queue (queue.length : Int)
      simp only [throttleLoop]
      calc maxInflight (queue.length : Int) (drainQueue oracle queue.length queue)
          ≤ (queue.length : Int) := hd
        _ ≤ max (limit - 1) 0 := h
        _ ≤ max limit 1 := max_le_max (by omega) (by omega)
  | u :: rest, queue, h => by
      have hql : (queue ++ [u]).length = queue.length + 1 := by simp
      have hbound : max (limit - 1) 0 + 1 = max limit 1 := by
        rw [← max_add_add_right]
        norm_num
      by_cases hc : ((queue ++ [u]).length : Int) ≥ limit
      · have hi : oracle (queue ++ [u]) % (queue ++ [u]).length < (queue ++ [u]).length :=
          Nat.mod_lt _ (by simp)
        have hlen := removeAt_length (queue ++ [u]) _ hi
        have hlen2 : ((removeAt (queue ++ [u])
            (oracle (queue ++ [u]) % (queue ++ [u]).length)).length : Int)
            = (queue.length : Int) := by
          omega
        have ih := maxInflight_throttleLoop limit oracle rest
          (removeAt (queue ++ [u]) (oracle (queue ++ [u]) % (queue ++ [u]).length))
          (by rw [hlen2]; exact h)
        rw [hlen2] at ih
        simp only [throttleLoop, if_pos hc, maxInflight, inflightDelta]
        refine max_le ?_ (max_le ?_ ?_)
        · calc (queue.length : Int) ≤ max (limit - 1) 0 := h
            _ ≤ max limit 1 := max_le_max (by omega) (by omega)
        · calc (queue.length : Int) + 1 ≤ max (limit - 1) 0 + 1 := by omega
            _ = max limit 1 := hbound
        · have harith : (queue.length : Int) + 1 + -1 = (queue.length : Int) := by omega
          rw [harith]
          exact ih
      · have hlt : ((queue ++ [u]).length : Int) < limit := by omega
        have hq' : (((queue ++ [u]).length : Nat) : Int) = (queue.length : Int) + 1 := by
          rw [hql]
          push_cast
          ring
        have ih := maxInflight_throttleLoop limit oracle rest (queue ++ [u])
          (by rw [hq']; calc (queue.length : Int) + 1 ≤ limit - 1 := by omega
                _ ≤ max (limit - 1) 0 := le_max_left _ _)
        rw [hq'] at ih
        simp only [throttleLoop, if_neg hc, maxInflight, inflightDelta]
        refine max_le ?_ ih
        calc (queue.length : Int) ≤ max (limit - 1) 0 := h
          _ ≤ max limit 1 := max_le_max (by omega) (by omega)

/-- A finish event does not change the start count. -/
theorem startCount_cons_finish (id : Nat) (t : List SchedEv) :
    startCount (SchedEv.finish id :: t) = startCount t := by
  simp [startCount, List.countP_cons, isStartEv]

/-- A start event increments the start count. -/
theorem startCount_cons_start (id : Nat) (t : List SchedEv) :
    startCount (SchedEv.start id :: t) = startCount t + 1 := by
  simp [startCount, List.countP_cons, isStartEv]

/-- A finish event increments the finish count. -/
theorem finishCount_cons_finish (id : Nat) (t : List SchedEv) :
    finishCount (SchedEv.finish id :: t) = finishCount t + 1 := by
  simp [finishCount, List.countP_cons, isStartEv]

/-- A start event does not change the finish count. -/
theorem finishCount_cons_start (id : Nat) (t : List SchedEv) :
    finishCount (SchedEv.start id :: t) = finishCount t := by
  simp [finishCount, List.countP_cons, isStartEv]

/-- The drain emits no starts and exactly one finish per queued promise. -/
theorem drainQueue_counts (oracle : List Nat → Nat) :
    ∀ (fuel : Nat) (q : List Nat), fuel = q.length →
      startCount (drainQueue oracle fuel q) = 0
      ∧ finishCount (drainQueue oracle fuel q) = q.length
  | 0, q, h => by
      simp [drainQueue, startCount, finishCount, ← h]
  | fuel + 1, [], h => by simp at h
  | fuel + 1, x :: rest, h => by
      have hi : oracle (x :: rest) % (x :: rest).length < (x :: rest).length :=
        Nat.mod_lt _ (by simp)
      have hlen := removeAt_length (x :: rest) _ hi
      have hfuel : fuel
          = (removeAt (x :: rest) (oracle (x :: rest) % (x :: rest).length)).length := by
        omega
      have ih := drainQueue_counts oracle fuel
        (removeAt (x :: rest) (oracle (x :: rest) % (x :: rest).length)) hfuel
      rw [show drainQueue oracle (fuel + 1) (x :: rest)
          = SchedEv.finish ((x :: rest).getD (oracle (x :: rest) % (x :: rest).length) 0)
            :: drainQueue oracle fuel
              (removeAt (x :: rest) (oracle (x :: rest) % (x :: rest).length)) from rfl]
      rw [startCount_cons_finish, finishCount_cons_finish]
      refine ⟨ih.1, ?_⟩
      rw [ih.2]
      exact hlen

/-- The loop starts every pending unit exactly once and finishes every
started unit and every promise already queued exactly once. -/
theorem throttleLoop_counts (limit : Int) (oracle : List Nat → Nat) :
    ∀ (pending queue : List Nat),
      startCount (throttleLoop limit oracle pending queue) = pending.length
      ∧ finishCount (throttleLoop limit oracle pending queue)
          = pending.length + queue.length
  | [], queue => by
      have hd := drainQueue_counts oracle queue.length queue rfl
      simpa [throttleLoop] using hd
  | u :: rest, queue => by
      have hql : (queue ++ [u]).length = queue.length + 1 := by simp
      have hcons : (u :: rest).length = rest.length + 1 := rfl
      by_cases hc : ((queue ++ [u]).length : Int) ≥ limit
      · have hi : oracle (queue ++ [u]) % (queue ++ [u]).length < (queue ++ [u]).length :=
          Nat.mod_lt _ (by simp)
        have hlen := removeAt_length (queue ++ [u]) _ hi
        have ih := throttleLoop_counts limit oracle rest
          (removeAt (queue ++ [u]) (oracle (queue ++ [u]) % (queue ++ [u]).length))
        simp only [throttleLoop, if_pos hc]
        rw [startCount_cons_start, startCount_cons_finish,
          finishCount_cons_start, finishCount_cons_finish]
        refine ⟨?_, ?_⟩
        · rw [ih.1]
          omega
        · rw [ih.2]
          omega
      · have ih := throttleLoop_counts limit oracle rest (queue ++ [u])
        simp only [throttleLoop, if_neg hc]
        rw [startCount_cons_start, finishCount_cons_start]
        refine ⟨?_, ?_⟩
        · rw [ih.1]
          omega
        · rw [ih.2]
          omega

/-- Claim C4, confirmed: for every positive limit `k`, every list of units
and every completion order the environment may produce, at no point during
`throttleRequests(units, k)` are more than `k` units simultaneously in
flight. -/
theorem claim_c4_theorem (limit : Int) (hl : 1 ≤ limit)
    (requestsToMake : List Nat) (oracle : List Nat → Nat) :
    maxInflight 0 (throttleRequests requestsToMake limit oracle) ≤ limit := by
  have hstep := maxInflight_throttleLoop limit oracle requestsToMake []
    (by simpa using le_max_right (limit - 1) 0)
  have hmax : max limit 1 = limit := max_eq_left hl
  simpa [throttleRequests, hmax] using hstep

/-- Claim C4, witness: scenario C — 10 units with limit 3 under FIFO
completion. -/
theorem claim_c4_witness :
    maxInflight 0 (throttleRequests [0, 1, 2, 3, 4, 5, 6, 7, 8, 9] 3
      (fun _ => 0)) ≤ 3 :=
  claim_c4_theorem 3 (by decide) [0, 1, 2, 3, 4, 5, 6, 7, 8, 9] (fun _ => 0)

/-- Claim C8, counterexample: `throttleRequests` has no guard on the limit;
with `limit = 0` and one unit, the unit IS started (and the run completes
normally with its full trace) rather than failing immediately with no unit
executed. -/
theorem claim_c8_counterexample :
    throttleRequests [7] 0 (fun _ => 0) = [SchedEv.start 7, SchedEv.finish 7]
    ∧ startCount (throttleRequests [7] 0 (fun _ => 0)) ≠ 0 :=
  ⟨rfl, by decide⟩

/-- Claim C8, amended: for `limit ≤ 0`, `throttleRequests` does not fail
and executes every unit — `queue.length >= limit` holds after each
admission, so it degenerates to sequential execution: at most one unit in
flight, and all units are started and finished exactly once.  (A unit
"failure" is reported through the aggregator and its promise still
resolves, so it is an ordinary finish here and never fails the run.) -/
theorem claim_c8_theorem (limit : Int) (hl : limit ≤ 0)
    (requestsToMake : List Nat) (oracle : List Nat → Nat) :
    maxInflight 0 (throttleRequests requestsToMake limit oracle) ≤ 1
    ∧ startCount (throttleRequests requestsToMake limit oracle)
        = requestsToMake.length
    ∧ finishCount (throttleRequests requestsToMake limit oracle)
        = requestsToMake.length := by
  refine ⟨?_, ?_⟩
  · have hstep := maxInflight_throttleLoop limit oracle requestsToMake []
      (by simpa using le_max_right (limit - 1) 0)
    have hmax : max limit 1 = 1 := max_eq_right (by omega)
    simpa [throttleRequests, hmax] using hstep
  · have hcnt := throttleLoop_counts limit oracle requestsToMake []
    simpa [throttleRequests] using hcnt

/-- Claim C8, witness: three units with limit `-2`. -/
theorem claim_c8_witness :
    maxInflight 0 (throttleRequests [0, 1, 2] (-2) (fun _ => 0)) ≤ 1
    ∧ startCount (throttleRequests [0, 1, 2] (-2) (fun _ => 0)) = 3
    ∧ finishCount (throttleRequests [0, 1, 2] (-2) (fun _ => 0)) = 3 := by
  have h := claim_c8_theorem (-2) (by decide) [0, 1, 2] (fun _ => 0)
  simpa using h

end ThrottleHook
